import Mathlib

/-!
Verification development for the RWKV-cpp-node prompt-state cache and
concurrent completion scheduler (`src/rwkv_models.js`, `src/utils.js` /
`ai_utils`, and the dispatcher built on per-worker promise queues).

The JavaScript source is shallowly embedded as executable Lean functions:

* JS strings are modelled as `List Char` (`JStr`), with the JS string
  operations (`startsWith`, `slice`, `indexOf`, `lastIndexOf`, `substring`)
  re-implemented over lists with JS clamping semantics.
* `Float32Array` state / logits buffers are opaque values of type
  parameters `V` / `L`; the external evaluator `rwkv_eval` is an oracle
  `evalTok : V → Nat → V × L` (output state, output logits), and the
  tokenizer an oracle pair `encode` / `decode`.  The token sampler used
  inside the generation loop is abstracted as an oracle `sample : L → Nat`
  (the `.token` field of `ai_utils.sampleLogits`); the sampler itself is
  embedded separately where a claim is about it.
* The `lru-cache` dependency is modelled as an association list in
  insertion order with `keys` / `get` / `set`; capacity eviction is not
  modelled (no claim concerns eviction).  The JS object additionally
  accepts plain property assignments (`cache[key] = v`), which do NOT go
  through `set` and are invisible to `keys()` / `get`; these are recorded
  in a separate `props` field.
* Wall-clock timings (`perf.*`) are not modelled.
* The `initState` code path of `completion` is not modelled: in the
  source, that path builds `promptStartState` without `prompt` / `tokens`
  fields, so `formatOutputObject` dereferences `undefined` and the call
  can never return successfully.
-/

/-- JS strings, modelled as lists of characters. -/
abbrev JStr := List Char

/-- JS `input.startsWith(prefixKey)`. -/
def jsStartsWith (s p : JStr) : Bool :=
  p.isPrefixOf s

/-- JS `s.slice(start)` for a non-negative start index. -/
def jsDrop (s : JStr) (start : Nat) : JStr :=
  s.drop start

/-- JS `s.slice(-n)` (the last `n` characters).  JS treats `-0` as `0`,
so `n = 0` yields the whole string. -/
def jsSliceFromNeg (s : JStr) (n : Nat) : JStr :=
  if n = 0 then s else s.drop (s.length - n)

/-- JS `s.slice(a, b)` for non-negative `a ≤ b`. -/
def jsSliceRange (s : JStr) (a b : Nat) : JStr :=
  (s.drop a).take (b - a)

/-- Upward scan for JS `s.indexOf(pat)`: try indices `i, i+1, ...` while
fuel lasts, returning the first index where `pat` occurs. -/
def jsIndexOfAux (s pat : JStr) : Nat → Nat → Option Nat
  | _, 0 => none
  | i, fuel + 1 =>
      if pat.isPrefixOf (s.drop i) then some i else jsIndexOfAux s pat (i + 1) fuel

/-- JS `s.indexOf(pat)`, as an `Option` (`none` stands for `-1`). -/
def jsIndexOf? (s pat : JStr) : Option Nat :=
  jsIndexOfAux s pat 0 (s.length + 1)

/-- JS `s.indexOf(pat) >= 0`. -/
def jsIncludes (s pat : JStr) : Bool :=
  (jsIndexOf? s pat).isSome

/-- Downward scan for JS `s.lastIndexOf(pat)`: try index `k` first, then
`k-1, ...`, returning the largest index where `pat` occurs. -/
def jsLastIndexOfAux (s pat : JStr) : Nat → Option Nat
  | 0 => if pat.isPrefixOf s then some 0 else none
  | k + 1 =>
      if pat.isPrefixOf (s.drop (k + 1)) then some (k + 1) else jsLastIndexOfAux s pat k

/-- JS `s.lastIndexOf(pat)`, as an `Option` (`none` stands for `-1`). -/
def jsLastIndexOf? (s pat : JStr) : Option Nat :=
  jsLastIndexOfAux s pat s.length

/-- JS `s.substring(0, s.lastIndexOf(pat))`; when `pat` does not occur,
JS clamps `-1` to `0` and returns the empty string. -/
def jsTrimAtLastIndexOf (s pat : JStr) : JStr :=
  match jsLastIndexOf? s pat with
  | some i => s.take i
  | none => []

/-- One entry of the state cache, exactly the object stored by the source:
`{ state, logits, prompt, tokens }`. -/
structure CacheEntry (V L : Type) where
  state : V
  logits : L
  prompt : JStr
  tokens : List Nat
deriving DecidableEq

/-- The `lru-cache` instance as seen by the source.  `entries` is the real
map (insertion order; touched via `keys()` / `get` / `set`), `props` records
plain JS property assignments (`cache[key] = entry`) which bypass the map:
they are invisible to `keys()` and `get`. -/
structure LruCache (V L : Type) where
  entries : List (JStr × CacheEntry V L)
  props : List (JStr × CacheEntry V L)
deriving DecidableEq

/-- The empty cache. -/
def emptyCache (V L : Type) : LruCache V L :=
  ⟨[], []⟩

/-- JS `for (const key of cache.keys())`. -/
def cacheKeys {V L : Type} (c : LruCache V L) : List JStr :=
  c.entries.map Prod.fst

/-- JS `cache.get(key)`. -/
def cacheGet {V L : Type} (c : LruCache V L) (k : JStr) : Option (CacheEntry V L) :=
  (c.entries.find? (fun p => p.1 = k)).map Prod.snd

/-- JS `cache.set(key, entry)`: replace any previous binding of `key`. -/
def cacheSet {V L : Type} (c : LruCache V L) (k : JStr) (e : CacheEntry V L) :
    LruCache V L :=
  { c with entries := c.entries.filter (fun p => ¬ p.1 = k) ++ [(k, e)] }

/-- JS `cache[key] = entry`: a plain property assignment on the cache
object, NOT an insertion into the LRU map (the write-back path of
`completion` uses this form). -/
def cachePropAssign {V L : Type} (c : LruCache V L) (k : JStr) (e : CacheEntry V L) :
    LruCache V L :=
  { c with props := c.props ++ [(k, e)] }

/-- Stable insertion for the descending-by-length key sort
(`keys.sort((a, b) => b.length - a.length)`; JS `Array#sort` is stable). -/
def insertByLenDesc (x : JStr) : List JStr → List JStr
  | [] => [x]
  | y :: ys => if y.length < x.length then x :: y :: ys else y :: insertByLenDesc x ys

/-- Sort the cache keys by length, longest first (stable). -/
def sortByLenDesc (l : List JStr) : List JStr :=
  l.foldl (fun acc x => insertByLenDesc x acc) []

/-- The external collaborators of one RWKV instance: tokenizer, evaluator
and (abstracted) sampler, together with the zero-initialised buffers
(`new Float32Array(size)`). -/
structure RwkvEnv (V L : Type) where
  encode : JStr → List Nat
  decode : List Nat → JStr
  evalTok : V → Nat → V × L
  sample : L → Nat
  zeroState : V
  zeroLogits : L

/-- The eval loop of `_getHiddenState_fromExistingState_andTokenArr`: feed
the tokens one by one (the async variant batches them through
`rwkv_eval_sequence`, which consumes the same tokens in the same order),
carrying the state buffer; the logits buffer holds the last token's
logits (it starts zero-initialised and is overwritten by each call). -/
def runTokens {V L : Type} (env : RwkvEnv V L) (st0 : V) (ts : List Nat) : V × L :=
  ts.foldl (fun p t => env.evalTok p.1 t) (st0, env.zeroLogits)

/-- `_getHiddenState_fromExistingState_andTokenArr`: throws on an empty
token array, otherwise copies the input state (zero state when `null`)
into a fresh output buffer and runs the eval loop. -/
def getHiddenState_fromExistingState {V L : Type} (env : RwkvEnv V L)
    (inState : Option V) (tokenArr : List Nat) : Except String (V × L) :=
  if tokenArr.isEmpty then
    .error "RWKV token array is empty"
  else
    let st0 := match inState with
      | none => env.zeroState
      | some s => s
    .ok (runTokens env st0 tokenArr)

/-- Candidate scan of the async `_getHiddenState_fromFullInputString`
(lines 1123–1146): walk the keys longest-first; on a string-prefix match,
`get` the candidate; the subsequent token-validation `for` loop computes
`inputTokens.slice(candidateState.tokens.length)` and compares, but its
mismatch branch is a bare `continue`, which in JS only advances that inner
`for` loop — no iteration changes any variable and no branch leaves the
candidate loop, so control always falls through to the acceptance code
(`cachedState = candidateState; break`). -/
def asyncFindGo {V L : Type} (c : LruCache V L) (input : JStr)
    (inputTokens : List Nat) : List JStr → Option (CacheEntry V L)
  | [] => none
  | k :: rest =>
      if jsStartsWith input k then
        match cacheGet c k with
        | none => asyncFindGo c input inputTokens rest
        | some cand =>
            let _inputTokensSlice := inputTokens.drop cand.tokens.length
            some cand
      else asyncFindGo c input inputTokens rest

/-- Cache lookup of the async `_getHiddenState_fromFullInputString`. -/
def asyncFindCachedState {V L : Type} (c : LruCache V L) (input : JStr)
    (inputTokens : List Nat) : Option (CacheEntry V L) :=
  asyncFindGo c input inputTokens (sortByLenDesc (cacheKeys c))

/-- Candidate scan of the sync `_getHiddenState_fromFullInputString`
(lines 330–341): accept the longest cached key that is a string prefix of
the input (no token validation at all in this variant). -/
def syncFindGo {V L : Type} (c : LruCache V L) (input : JStr) :
    List JStr → Option (CacheEntry V L)
  | [] => none
  | k :: rest =>
      if jsStartsWith input k then
        match cacheGet c k with
        | none => syncFindGo c input rest
        | some cand => some cand
      else syncFindGo c input rest

/-- Cache lookup of the sync `_getHiddenState_fromFullInputString`. -/
def syncFindCachedState {V L : Type} (c : LruCache V L) (input : JStr) :
    Option (CacheEntry V L) :=
  syncFindGo c input (sortByLenDesc (cacheKeys c))

/-- The object returned by `_getHiddenState_fromFullInputString`. -/
structure PromptState (V L : Type) where
  state : V
  logits : L
  prompt : JStr
  tokens : List Nat
  cachedTokenSize : Nat
deriving DecidableEq

/-- `TOKEN_CACHE_OFFSET` (sync variant). -/
def TOKEN_CACHE_OFFSET : Nat := 2

/-- `MIN_OUTPUT_TOKEN_SIZE_FOR_BUFFERING` (sync variant). -/
def MIN_OUTPUT_TOKEN_SIZE_FOR_BUFFERING : Nat := 5

/-- Async `_getHiddenState_fromFullInputString` (the cache is assumed
enabled, as in every claim; with the cache disabled this method would
dereference `null` at its unconditional `this._stateCache.set`).  Returns
the prompt state together with the updated cache. -/
def asyncResolvePrompt {V L : Type} (env : RwkvEnv V L) (cache : LruCache V L)
    (input : JStr) (inputTokens : List Nat) :
    Except String (PromptState V L × LruCache V L) :=
  if input = [] then
    .error "RWKV input string is empty (are you missing a prompt?)"
  else
    match asyncFindCachedState cache input inputTokens with
    | some cs =>
        let remainingInput := input.drop cs.prompt.length
        if remainingInput = [] then
          .ok ({ state := cs.state, logits := cs.logits, prompt := input,
                 tokens := cs.tokens, cachedTokenSize := cs.tokens.length }, cache)
        else
          let remainingTokens := env.encode remainingInput
          let fullTokenArr := cs.tokens ++ remainingTokens
          match getHiddenState_fromExistingState env (some cs.state) remainingTokens with
          | .error e => .error e
          | .ok (st, lg) =>
              let cache' := cacheSet cache input
                ⟨st, lg, input, fullTokenArr⟩
              .ok ({ state := st, logits := lg, prompt := input,
                     tokens := fullTokenArr, cachedTokenSize := cs.tokens.length }, cache')
    | none =>
        let remainingTokens := env.encode input
        match getHiddenState_fromExistingState env none remainingTokens with
        | .error e => .error e
        | .ok (st, lg) =>
            let cache' := cacheSet cache input
              ⟨st, lg, input, remainingTokens⟩
            .ok ({ state := st, logits := lg, prompt := input,
                   tokens := remainingTokens, cachedTokenSize := 0 }, cache')

/-- Sync `_getHiddenState_fromFullInputString` (cache assumed enabled).
The remaining tokens are split into a cachable part (all but the last
`TOKEN_CACHE_OFFSET`) and a non-cachable tail; only the cachable part's
state is inserted into the cache (via `set`). -/
def syncResolvePrompt {V L : Type} (env : RwkvEnv V L) (cache : LruCache V L)
    (input : JStr) : Except String (PromptState V L × LruCache V L) :=
  if input = [] then
    .error "RWKV input string is empty (are you missing a prompt?)"
  else
    match syncFindCachedState cache input with
    | some cs =>
        let remainingInput := input.drop cs.prompt.length
        if remainingInput = [] then
          .ok ({ state := cs.state, logits := cs.logits, prompt := input,
                 tokens := cs.tokens, cachedTokenSize := cs.tokens.length }, cache)
        else
          let remainingTokens := env.encode remainingInput
          let fullTokenArr := cs.tokens ++ remainingTokens
          if remainingTokens.length ≤ TOKEN_CACHE_OFFSET then
            match getHiddenState_fromExistingState env (some cs.state) remainingTokens with
            | .error e => .error e
            | .ok (st, lg) =>
                .ok ({ state := st, logits := lg, prompt := input,
                       tokens := fullTokenArr, cachedTokenSize := cs.tokens.length }, cache)
          else
            let cachable := remainingTokens.take (remainingTokens.length - TOKEN_CACHE_OFFSET)
            let nonCachable := remainingTokens.drop (remainingTokens.length - TOKEN_CACHE_OFFSET)
            match getHiddenState_fromExistingState env (some cs.state) cachable with
            | .error e => .error e
            | .ok (cst, clg) =>
                let cachableStr := cs.prompt ++ env.decode cachable
                let cachableTokens := cs.tokens ++ cachable
                let cache' := cacheSet cache cachableStr
                  ⟨cst, clg, cachableStr, cachableTokens⟩
                match getHiddenState_fromExistingState env (some cst) nonCachable with
                | .error e => .error e
                | .ok (st, lg) =>
                    .ok ({ state := st, logits := lg, prompt := input,
                           tokens := fullTokenArr, cachedTokenSize := cs.tokens.length }, cache')
    | none =>
        let remainingTokens := env.encode input
        if remainingTokens.length ≤ TOKEN_CACHE_OFFSET then
          match getHiddenState_fromExistingState env none remainingTokens with
          | .error e => .error e
          | .ok (st, lg) =>
              .ok ({ state := st, logits := lg, prompt := input,
                     tokens := remainingTokens, cachedTokenSize := 0 }, cache)
        else
          let cachable := remainingTokens.take (remainingTokens.length - TOKEN_CACHE_OFFSET)
          let nonCachable := remainingTokens.drop (remainingTokens.length - TOKEN_CACHE_OFFSET)
          match getHiddenState_fromExistingState env none cachable with
          | .error e => .error e
          | .ok (cst, clg) =>
              let cachableStr := env.decode cachable
              let cache' := cacheSet cache cachableStr
                ⟨cst, clg, cachableStr, cachable⟩
              match getHiddenState_fromExistingState env (some cst) nonCachable with
              | .error e => .error e
              | .ok (st, lg) =>
                  .ok ({ state := st, logits := lg, prompt := input,
                         tokens := remainingTokens, cachedTokenSize := 0 }, cache')

/-- One slot of the circular state buffer: the evaluator's output buffers
plus the output snapshot (`outputStr` / `outputTokens` as they were just
before the token sampled from this slot's logits was appended). -/
structure Slot (V L : Type) where
  state : V
  logits : L
  outputStr : JStr
  outputTokens : List Nat
deriving DecidableEq

/-- The mutable locals of the generation loop of `completion`. -/
structure GenState (V L : Type) where
  buf : List (Slot V L)
  outputStr : JStr
  outputTokens : List Nat
  curTok : Nat
  curIdx : Nat
  nxtIdx : Nat
  streamPos : Nat
  chunks : List JStr
  stopSeqMatched : Option JStr
deriving DecidableEq

/-- A zero-initialised slot (`new Float32Array(...)` pair). -/
def zeroSlot {V L : Type} (env : RwkvEnv V L) : Slot V L :=
  ⟨env.zeroState, env.zeroLogits, [], []⟩

/-- Mid-loop streaming flush: `streamLimit = outputStr.length -
stopSeqMaxLen*2`; emit `outputStr.slice(streamPos, streamLimit)` when
`streamLimit > 0 && streamLimit > streamPos` (Nat subtraction saturates at
0, which coincides with the JS `> 0` guard on a negative limit). -/
def midFlush (outputStr : JStr) (stopSeqMaxLen streamPos : Nat)
    (chunks : List JStr) : List JStr × Nat :=
  let streamLimit := outputStr.length - stopSeqMaxLen * 2
  if 0 < streamLimit ∧ streamPos < streamLimit then
    (chunks ++ [jsSliceRange outputStr streamPos streamLimit], streamLimit)
  else
    (chunks, streamPos)

/-- One iteration of the main token-generation loop of `completion`
(identical in the sync and async variants up to `BUFFER_SIZE`): evaluate
the previous token from the current slot into the next slot, sample the
next token from the fresh logits, snapshot the output into the next slot,
append the token, advance the ring indices, check the trailing
`2×stopSeqMaxLen` window for a stop sequence (in `stopArr` order), and —
only when no stop matched, since the JS `break` skips it — do the
streaming flush. -/
def genStep {V L : Type} (env : RwkvEnv V L) (bufferSize : Nat)
    (stopArr : List JStr) (stopSeqMaxLen : Nat) (streaming : Bool)
    (g : GenState V L) : GenState V L :=
  let curState := (g.buf.getD g.curIdx (zeroSlot env)).state
  let (nxtState, nxtLogits) := env.evalTok curState g.curTok
  let tok := env.sample nxtLogits
  let buf' := g.buf.set g.nxtIdx ⟨nxtState, nxtLogits, g.outputStr, g.outputTokens⟩
  let outputTokens' := g.outputTokens ++ [tok]
  let outputStr' := g.outputStr ++ env.decode [tok]
  let curIdx' := g.nxtIdx
  let nxtIdx' := if g.nxtIdx + 1 ≥ bufferSize then 0 else g.nxtIdx + 1
  let lastXStr := jsSliceFromNeg outputStr' (stopSeqMaxLen * 2)
  let matched := stopArr.find? (fun sq => jsIncludes lastXStr sq)
  match matched with
  | some sq =>
      { buf := buf', outputStr := outputStr', outputTokens := outputTokens',
        curTok := tok, curIdx := curIdx', nxtIdx := nxtIdx',
        streamPos := g.streamPos, chunks := g.chunks, stopSeqMatched := some sq }
  | none =>
      let (chunks', streamPos') :=
        if streaming then midFlush outputStr' stopSeqMaxLen g.streamPos g.chunks
        else (g.chunks, g.streamPos)
      { buf := buf', outputStr := outputStr', outputTokens := outputTokens',
        curTok := tok, curIdx := curIdx', nxtIdx := nxtIdx',
        streamPos := streamPos', chunks := chunks', stopSeqMatched := none }

/-- The main generation loop: up to `maxTokens - 1` iterations (the fuel),
breaking when a stop sequence matched. -/
def genLoop {V L : Type} (env : RwkvEnv V L) (bufferSize : Nat)
    (stopArr : List JStr) (stopSeqMaxLen : Nat) (streaming : Bool) :
    Nat → GenState V L → GenState V L
  | 0, g => g
  | fuel + 1, g =>
      let g' := genStep env bufferSize stopArr stopSeqMaxLen streaming g
      if g'.stopSeqMatched.isSome then g'
      else genLoop env bufferSize stopArr stopSeqMaxLen streaming fuel g'

/-- The `usage` object of a completion result. -/
structure Usage where
  promptTokens : Nat
  completionTokens : Nat
  totalTokens : Nat
  promptTokensCached : Nat
deriving DecidableEq

/-- The observable completion result: prompt, trimmed completion string,
usage counts, and the full list of chunks passed to `streamCallback`
(timing fields are wall-clock and not modelled). -/
structure CompletionResult where
  prompt : JStr
  completion : JStr
  usage : Usage
  chunks : List JStr
deriving DecidableEq

/-- `formatOutputObject` (identical in both variants): trim the output at
`outputStr.lastIndexOf(stopSeqMatched)` when a stop sequence matched, do
the final streaming flush up to the trimmed length, and assemble the
result object. -/
def formatOutputObject {V L : Type} (ps : PromptState V L) (outputStr : JStr)
    (outputTokens : List Nat) (stopSeqMatched : Option JStr) (streaming : Bool)
    (streamPos : Nat) (chunks : List JStr) : CompletionResult :=
  let finalOutputStr := match stopSeqMatched with
    | some sq => jsTrimAtLastIndexOf outputStr sq
    | none => outputStr
  let chunks' :=
    if streaming ∧ 0 < finalOutputStr.length ∧ streamPos < finalOutputStr.length then
      chunks ++ [jsSliceRange outputStr streamPos finalOutputStr.length]
    else chunks
  { prompt := ps.prompt,
    completion := finalOutputStr,
    usage := { promptTokens := ps.tokens.length,
               completionTokens := outputTokens.length,
               totalTokens := ps.tokens.length + outputTokens.length,
               promptTokensCached := ps.cachedTokenSize },
    chunks := chunks' }

/-- The options object of `completion` (`initState` is not modelled, see
the header; `temperature` / `top_p` only feed the abstracted sampler). -/
structure CompletionOpt where
  prompt : Option JStr
  max_tokens : Option Nat
  stop : List JStr
  streaming : Bool
deriving DecidableEq

/-- `opt.max_tokens || 64` (the JS `||` maps both `undefined` and `0` to
the default; the `=== 0` pre-warm branch has already returned by then). -/
def jsMaxTokensDefault (mt : Option Nat) : Nat :=
  match mt with
  | none => 64
  | some m => if m = 0 then 64 else m

/-- `Math.max` fold computing `stopSeqMaxLen`. -/
def stopMaxLen (stopArr : List JStr) : Nat :=
  stopArr.foldl (fun m s => max m s.length) 0

deriving instance DecidableEq for Except

/-- Everything one `completion` call returns or changes: the result (or
thrown error), the cache afterwards, whether the request was handed to
`_assignFunctionToWorker` (async variant; trivially true for sync), and
how many tokens were fed to the evaluator. -/
structure CompletionOutcome (V L : Type) where
  result : Except String CompletionResult
  cache : LruCache V L
  admitted : Bool
  evalTokens : Nat
deriving DecidableEq

/-- Number of tokens the prompt-resolution path feeds to the evaluator
(for the outcome's `evalTokens` bookkeeping). -/
def asyncResolveEvalCount {V L : Type} (cache : LruCache V L) (input : JStr)
    (inputTokens : List Nat) (env : RwkvEnv V L) : Nat :=
  match asyncFindCachedState cache input inputTokens with
  | some cs =>
      let remainingInput := input.drop cs.prompt.length
      if remainingInput = [] then 0 else (env.encode remainingInput).length
  | none => (env.encode input).length

/-- The generation phase shared by both variants: build the circular
buffer with the prompt state in slot 0 and `bufferSize - 1` zeroed slots,
sample the first token from the prompt's logits, then run the loop for up
to `maxTokens - 1` further iterations. -/
def runGeneration {V L : Type} (env : RwkvEnv V L) (bufferSize : Nat)
    (ps : PromptState V L) (maxTokens : Nat) (stopArr : List JStr)
    (streaming : Bool) : GenState V L :=
  let stopSeqMaxLen := stopMaxLen stopArr
  let buf0 : List (Slot V L) :=
    ⟨ps.state, ps.logits, [], []⟩ :: List.replicate (bufferSize - 1) (zeroSlot env)
  let t1 := env.sample ps.logits
  let g0 : GenState V L :=
    { buf := buf0, outputStr := env.decode [t1], outputTokens := [t1],
      curTok := t1, curIdx := 0, nxtIdx := 1, streamPos := 0, chunks := [],
      stopSeqMatched := none }
  genLoop env bufferSize stopArr stopSeqMaxLen streaming (maxTokens - 1) g0

/-- Async `completion` (lines 1228–1544): validate the prompt before any
queue admission; inside the worker closure, resolve the prompt through the
cache, return immediately on `max_tokens === 0`, otherwise run the
generation loop (`BUFFER_SIZE = 5`) and finish with the write-back — a
plain property assignment `self._stateCache[cacheStr] = {...}` of the slot
at `curBufferIndex`, which bypasses the LRU's `set`. -/
def asyncCompletion {V L : Type} (env : RwkvEnv V L) (cache : LruCache V L)
    (opt : CompletionOpt) : CompletionOutcome V L :=
  if opt.prompt = none ∨ opt.prompt = some [] then
    ⟨.error "Prompt is required for completion operation", cache, false, 0⟩
  else
    let p := opt.prompt.getD []
    let promptTokens := env.encode p
    match asyncResolvePrompt env cache p promptTokens with
    | .error e => ⟨.error e, cache, true, 0⟩
    | .ok (ps, cache1) =>
        let promptEvals := asyncResolveEvalCount cache p promptTokens env
        if opt.max_tokens = some 0 then
          ⟨.ok (formatOutputObject ps [] [] none opt.streaming 0 []),
           cache1, true, promptEvals⟩
        else
          let maxTokens := jsMaxTokensDefault opt.max_tokens
          let g := runGeneration env 5 ps maxTokens opt.stop opt.streaming
          let cacheState := g.buf.getD g.curIdx (zeroSlot env)
          let cacheStr := ps.prompt ++ cacheState.outputStr
          let cache2 := cachePropAssign cache1 cacheStr
            ⟨cacheState.state, cacheState.logits, cacheStr,
             ps.tokens ++ cacheState.outputTokens⟩
          ⟨.ok (formatOutputObject ps g.outputStr g.outputTokens g.stopSeqMatched
                  opt.streaming g.streamPos g.chunks),
           cache2, true, promptEvals + (g.outputTokens.length - 1)⟩

/-- The cache-slot index computed by the sync write-back (lines 727–730):
`curBufferIndex - TOKEN_CACHE_OFFSET - 1`, wrapped into the buffer by a
single `+ BUFFER_SIZE` when negative. -/
def syncCacheBufferIndex (curBufferIndex : Nat) : Nat :=
  let c : Int := (curBufferIndex : Int) - TOKEN_CACHE_OFFSET - 1
  if c < 0 then (c + (TOKEN_CACHE_OFFSET + 1)).toNat else c.toNat

/-- Sync `completion` (lines 458–747): same control flow with
`BUFFER_SIZE = TOKEN_CACHE_OFFSET + 1 = 3`; the write-back runs only when
at least `MIN_OUTPUT_TOKEN_SIZE_FOR_BUFFERING` tokens were produced and
promotes the ring slot at `syncCacheBufferIndex curIdx`, again through a
plain property assignment (`this._stateCache[cacheStr] = {...}`). -/
def syncCompletion {V L : Type} (env : RwkvEnv V L) (cache : LruCache V L)
    (opt : CompletionOpt) : CompletionOutcome V L :=
  if opt.prompt = none ∨ opt.prompt = some [] then
    ⟨.error "Prompt is required for completion operation", cache, false, 0⟩
  else
    let p := opt.prompt.getD []
    match syncResolvePrompt env cache p with
    | .error e => ⟨.error e, cache, true, 0⟩
    | .ok (ps, cache1) =>
        if opt.max_tokens = some 0 then
          ⟨.ok (formatOutputObject ps [] [] none opt.streaming 0 []),
           cache1, true, 0⟩
        else
          let maxTokens := jsMaxTokensDefault opt.max_tokens
          let bufferSize := TOKEN_CACHE_OFFSET + 1
          let g := runGeneration env bufferSize ps maxTokens opt.stop opt.streaming
          let cache2 :=
            if MIN_OUTPUT_TOKEN_SIZE_FOR_BUFFERING ≤ g.outputTokens.length then
              let cacheState := g.buf.getD (syncCacheBufferIndex g.curIdx) (zeroSlot env)
              let cacheStr := ps.prompt ++ cacheState.outputStr
              cachePropAssign cache1 cacheStr
                ⟨cacheState.state, cacheState.logits, cacheStr,
                 ps.tokens ++ cacheState.outputTokens⟩
            else cache1
          ⟨.ok (formatOutputObject ps g.outputStr g.outputTokens g.stopSeqMatched
                  opt.streaming g.streamPos g.chunks),
           cache2, true, g.outputTokens.length - 1⟩

/-- `ai_utils.getMaxFloat`: fold starting from `-Infinity` (modelled as
`⊥` in `WithBot Int`; logits are modelled as integers since only their
order matters to the claims). -/
def getMaxFloat (arr : List Int) : WithBot Int :=
  arr.foldl (fun m x => if m < (x : WithBot Int) then (x : WithBot Int) else m) ⊥

/-- JS `arr.indexOf(v)`: first index of `v`, `-1` when absent. -/
def jsIndexOfVal : List Int → WithBot Int → Int
  | [], _ => -1
  | x :: xs, v =>
      if (x : WithBot Int) = v then 0
      else
        let r := jsIndexOfVal xs v
        if r < 0 then -1 else r + 1

/-- The dynamically-typed return value of `ai_utils.sampleLogits`
(`src/unnamed/part_002`): the `temp <= 0` branch returns a bare number
(`logits.indexOf(getMaxFloat(logits))`), every other return site yields
an object `{ token, logprobs }` as its doc comment promises. -/
inductive JsSampleResult where
  | num (idx : Int)
  | obj (token : Nat) (logprobs : List (Nat × Int))
deriving DecidableEq

/-- `ai_utils.sampleLogits` (part_002 lines 52–139).  The claim under
study concerns the `temp <= 0` branch (lines 58–61), which is embedded
exactly; the positive-temperature path (temperature scaling, Float32
softmax and a `Math.random()` draw) is floating-point and randomised, so
it is passed in as an oracle `positivePath`. -/
def sampleLogits (positivePath : List Int → Int → Int → JsSampleResult)
    (logits : List Int) (temp top_p : Int) : JsSampleResult :=
  if temp ≤ 0 then .num (jsIndexOfVal logits (getMaxFloat logits))
  else positivePath logits temp top_p

/-- The caller's `curTokenObj.token` access (`completion`, both variants):
reading the `.token` property of a JS number yields `undefined`, modelled
as `none`. -/
def jsToken : JsSampleResult → Option Nat
  | .num _ => none
  | .obj t _ => some t

/-- `let temperature = opt.temperature || 1.0` (async line 1416, sync line
620): the JS `||` maps both `undefined` and the falsy `0` to the default
`1.0`. -/
def jsDefaultTemperature (t : Option Int) : Int :=
  match t with
  | none => 1
  | some v => if v = 0 then 1 else v

/-- The scan of `_assignFunctionToWorker` (lines 979–989): `best` starts
at index 0 and `shortestQueueLength` is read once from queue 0; inside
the loop only `shortestQueue` / `shortestQueueIdx` are reassigned —
`shortestQueueLength` is never updated, so every comparison is against
queue 0's length. -/
def selectWorkerGo (shortestQueueLength : Nat) : Nat → Nat → List Nat → Nat
  | _, best, [] => best
  | i, best, l :: ls =>
      selectWorkerGo shortestQueueLength (i + 1)
        (if l < shortestQueueLength then i else best) ls

/-- The worker index chosen by `_assignFunctionToWorker` for the given
list of per-worker `(pending + queued)` lengths. -/
def selectWorkerIdx : List Nat → Nat
  | [] => 0
  | l0 :: rest => selectWorkerGo l0 1 0 rest

/-- Buffer identities for the aliasing analysis of the async `completion`:
one `Float32Array` is a numeric id; a ring slot holds the ids of its state
and logits buffers. -/
structure IdSlot where
  stateId : Nat
  logitsId : Nat
deriving DecidableEq

/-- The exact-hit return of the async `_getHiddenState_fromFullInputString`
(lines 1169–1177): `state: cachedState.state, logits: cachedState.logits`
copies the REFERENCES, so the returned prompt state carries the cache
entry's own buffer ids. -/
def exactHitPromptStateIds (entry : IdSlot) : IdSlot :=
  ⟨entry.stateId, entry.logitsId⟩

/-- The ring buffer of the async `completion` at the id level
(`BUFFER_SIZE = 5`): slot 0 is `promptStartState` (on an exact cache hit,
the cache entry's own buffers), slots 1–4 are freshly allocated
`Float32Array`s (ids distinct from any cache entry's). -/
def asyncRingIds (entry : IdSlot) : List IdSlot :=
  exactHitPromptStateIds entry :: (List.range 4).map (fun i => ⟨10 + 2 * i, 11 + 2 * i⟩)

/-- The sequence of ring slots whose buffers `rwkv_eval` overwrites during
the generation loop: iteration `i` writes `stateBuffer[nxtBufferIndex]`'s
state and logits in place, then advances `curBufferIndex := nxtBufferIndex`
and `nxtBufferIndex := nxtBufferIndex + 1` (wrapping at `bufSize`). -/
def ringEvalWrites (bufSize : Nat) (slots : List IdSlot) :
    Nat → Nat → Nat → List IdSlot
  | 0, _, _ => []
  | fuel + 1, _cur, nxt =>
      let w := slots.getD nxt ⟨999, 999⟩
      let nxt' := if nxt + 1 ≥ bufSize then 0 else nxt + 1
      w :: ringEvalWrites bufSize slots fuel nxt nxt'

/-- The buffers overwritten by an async `completion` generating
`maxTokens` tokens after an exact cache hit on `entry`: the loop runs
`maxTokens - 1` eval iterations starting at `curBufferIndex = 0`,
`nxtBufferIndex = 1`. -/
def asyncExactHitEvalWrites (entry : IdSlot) (maxTokens : Nat) : List IdSlot :=
  ringEvalWrites 5 (asyncRingIds entry) (maxTokens - 1) 0 1

/-- Lifecycle phases of one `completion` request in the two-level queue of
the async variant (shared funnel `promise-queue(concurrent * 2)` feeding
per-worker `promise-queue(1)`s).  The promise-queue dependency is not part
of the repository; its one-task-at-a-time discipline is modelled from the
spec (§4.2, §5): a queue with concurrency bound `c` runs at most `c` added
tasks at once and holds the rest waiting.  A funnel task stays pending
until its inner worker-queue task finishes (the source `await`s it), so a
request occupies funnel capacity from admission to completion. -/
inductive Phase where
  | funnelWait
  | workerWait (w : Nat)
  | executing (w : Nat)
  | finished
deriving DecidableEq

/-- A system state: the phase of every request. -/
abbrev Sys := List Phase

/-- Requests currently occupying the shared funnel's concurrency slots
(admitted and not yet finished). -/
def funnelActive (s : Sys) : Nat :=
  s.countP (fun ph => decide (ph ≠ Phase.funnelWait ∧ ph ≠ Phase.finished))

/-- `(pending + queued)` length of worker `w`'s queue, as read by
`_assignFunctionToWorker`. -/
def workerLoad (s : Sys) (w : Nat) : Nat :=
  s.countP (fun ph => decide (ph = Phase.workerWait w ∨ ph = Phase.executing w))

/-- The per-worker queue lengths scanned by the dispatcher. -/
def workerLoads (s : Sys) (N : Nat) : List Nat :=
  (List.range N).map (workerLoad s)

/-- The workers of all currently executing requests. -/
def execWorkers (s : Sys) : List Nat :=
  s.filterMap (fun ph => match ph with
    | Phase.executing w => some w
    | _ => none)

/-- Number of requests in the executing-evaluator state. -/
def execCount (s : Sys) : Nat :=
  (execWorkers s).length

/-- Number of requests currently executing on worker `w`. -/
def executingOn (s : Sys) (w : Nat) : Nat :=
  (execWorkers s).count w

/-- One scheduler step, for a pool of `N` workers.  `assign`: the funnel
starts a waiting request when fewer than `2×N` are active, and the request
immediately selects its worker via `selectWorkerIdx` over the current
loads and joins that worker's queue.  `start`: a worker queue (concurrency
1) begins a queued request when that worker has nothing executing.
`finish`: an executing request completes, releasing both its worker slot
and its funnel slot. -/
inductive Step (N : Nat) : Sys → Sys → Prop where
  | assign (pre post : Sys)
      (hcap : funnelActive (pre ++ Phase.funnelWait :: post) < 2 * N) :
      Step N (pre ++ Phase.funnelWait :: post)
        (pre ++ Phase.workerWait
            (selectWorkerIdx (workerLoads (pre ++ Phase.funnelWait :: post) N)) :: post)
  | start (pre post : Sys) (w : Nat)
      (hfree : executingOn (pre ++ Phase.workerWait w :: post) w = 0) :
      Step N (pre ++ Phase.workerWait w :: post) (pre ++ Phase.executing w :: post)
  | finish (pre post : Sys) (w : Nat) :
      Step N (pre ++ Phase.executing w :: post) (pre ++ Phase.finished :: post)

/-- Reachability under the scheduler's steps. -/
inductive Reach (N : Nat) : Sys → Sys → Prop where
  | refl (s : Sys) : Reach N s s
  | tail {s t u : Sys} : Reach N s t → Step N t u → Reach N s u

/-- Concrete tokenizer/evaluator instantiation (`V = L = Nat`) used by the
executable checks: tokens are character codes, the evaluator folds them
into the state, logits mirror the state. -/
def envA : RwkvEnv Nat Nat :=
  { encode := fun s => s.map Char.toNat,
    decode := fun ts => ts.map (fun t => Char.ofNat t),
    evalTok := fun st t => (st + t + 1, st + t + 1),
    sample := fun l => l % 5 + 100,
    zeroState := 0,
    zeroLogits := 0 }

/-- A sync completion of the 2-token prompt "AB" with `max_tokens = 6` and
the cache enabled, starting from an empty cache. -/
def c2Outcome : CompletionOutcome Nat Nat :=
  syncCompletion envA (emptyCache Nat Nat)
    { prompt := some ("AB".toList), max_tokens := some 6, stop := [], streaming := false }

/-- Tokenizer whose token 1 decodes to a 6-character chunk ending far from
the stop string it contains, and whose token 2 completes a second
occurrence of the stop string; the sampler picks token 1 from the prompt
logits (value 81) and token 2 from the next logits (value 83). -/
def envC5 : RwkvEnv Nat Nat :=
  { encode := fun s => s.map Char.toNat,
    decode := fun ts => ts.flatMap (fun t =>
      if t = 1 then "abxxxx".toList else if t = 2 then "ab".toList else "z".toList),
    evalTok := fun st t => (st + t + 1, st + t + 1),
    sample := fun l => if l = 81 then 1 else if l = 83 then 2 else 0,
    zeroState := 0,
    zeroLogits := 0 }

/-- Async completion of prompt "P" with stop sequence "ab", streaming on:
the first sampled token decodes to "abxxxx" (the completed stop string
immediately leaves the trailing detection window), the second to "ab"
(detected). -/
def c5Outcome : CompletionOutcome Nat Nat :=
  asyncCompletion envC5 (emptyCache Nat Nat)
    { prompt := some ("P".toList), max_tokens := some 3, stop := ["ab".toList],
      streaming := true }

/-- The pre-warm options `{ prompt: "Hi", max_tokens: 0 }`. -/
def c8Opt : CompletionOpt :=
  { prompt := some ("Hi".toList), max_tokens := some 0, stop := [], streaming := false }

/-- First pre-warm call on an empty cache. -/
def c8First : CompletionOutcome Nat Nat :=
  asyncCompletion envA (emptyCache Nat Nat) c8Opt

/-- Second identical pre-warm call, on the cache the first call left. -/
def c8Second : CompletionOutcome Nat Nat :=
  asyncCompletion envA c8First.cache c8Opt

/-- A cached entry for the prompt "h" whose stored token sequence `[99]`
does not match how "h" tokenizes inside a longer query. -/
def c1Entry : CacheEntry Nat Nat :=
  ⟨5, 6, "h".toList, [99]⟩

/-- A cache holding only the "h" entry. -/
def c1Cache : LruCache Nat Nat :=
  ⟨[("h".toList, c1Entry)], []⟩

/-- C1: the claim says a string-prefix candidate is used to resume only if
its stored token sequence agrees token-for-token with the head of the
query's fresh tokenization, and that a mismatch is treated as a miss.  In
the source, the async variant's token-validation loop cannot reject
anything (its mismatch branch is a `continue` that merely advances the
inner loop, and it compares against `inputTokens.slice(tokens.length)`,
the tail rather than the head), and the sync variant has no token check
at all: with the cached "h" entry storing tokens `[99]` and the query
"hello" freshly tokenizing to `[42, 7]`, both lookups still return the
"h" entry even though `[99]` disagrees with the head `[42]`. -/
theorem c1_token_guard_ineffective :
    asyncFindCachedState c1Cache ("hello".toList) [42, 7] = some c1Entry ∧
    syncFindCachedState c1Cache ("hello".toList) = some c1Entry ∧
    [42, 7].take c1Entry.tokens.length ≠ c1Entry.tokens := by
  decide

/-- C2: the claim says every cache write-back of a completion call stores
a state at least `TOKEN_CACHE_OFFSET = 2` tokens behind the end of the
computed sequence, promoting the ring slot `K` steps behind the current
position.  In the sync source, `cacheBufferIndex = curBufferIndex -
TOKEN_CACHE_OFFSET - 1 (mod BUFFER_SIZE)` with `BUFFER_SIZE =
TOKEN_CACHE_OFFSET + 1` is the identity, so the promoted slot IS the
current one: in the concrete run (2-token prompt, 6 generated tokens) the
stored entry carries `2 + 5 = 7` tokens — only one token behind the
sampled output and zero behind the last evaluated state, where the claim
demands at most `2 + 6 - 2 = 6`.  The write also lands in `props` (a
plain property assignment), not in the LRU map (`entries` stays empty). -/
theorem c2_writeback_not_lagged :
    (syncCacheBufferIndex 0 = 0 ∧ syncCacheBufferIndex 1 = 1 ∧ syncCacheBufferIndex 2 = 2) ∧
    c2Outcome.cache.props.map (fun p => p.2.tokens.length) = [7] ∧
    c2Outcome.cache.entries = [] ∧
    (c2Outcome.result.toOption.map fun r =>
      (r.usage.promptTokens, r.usage.completionTokens)) = some (2, 6) ∧
    2 + 6 - TOKEN_CACHE_OFFSET < 7 := by
  decide

/-- C3: the claim says every completion resuming from a cache hit copies
the cached vectors before using them as evaluation buffers, so cached
entries are never mutated.  In the async source the exact-hit return
aliases the entry's buffers (`state: cachedState.state`), that object
becomes ring slot 0, and iteration 5 of the generation loop wraps
`nxtBufferIndex` to 0 and `rwkv_eval` overwrites slot 0's buffers in
place: with the entry's buffers carrying ids `(0, 1)` and `maxTokens = 6`,
the entry's own buffers are among those written (they are not with
`maxTokens = 5`, before the ring wraps). -/
theorem c3_cache_entry_overwritten :
    exactHitPromptStateIds ⟨0, 1⟩ = ⟨0, 1⟩ ∧
    (⟨0, 1⟩ : IdSlot) ∈ asyncExactHitEvalWrites ⟨0, 1⟩ 6 ∧
    (⟨0, 1⟩ : IdSlot) ∉ asyncExactHitEvalWrites ⟨0, 1⟩ 5 := by
  decide

/-- Oracle standing for the positive-temperature path of `sampleLogits`
(softmax + `Math.random()` draw); the value below is arbitrary. -/
def dummyPositivePath : List Int → Int → Int → JsSampleResult :=
  fun _ _ _ => .obj 0 []

/-- C4: the claim says temperature ≤ 0 makes each generated token the
arg-max and the completion the decoded arg-max token.  In the source,
`completion` first applies `opt.temperature || 1.0`, so a requested
temperature of 0 becomes 1.0 and the ordinary sampling path runs instead
of the arg-max branch; and for a genuinely negative temperature the
`temp <= 0` branch of `sampleLogits` returns the bare index number, whose
`.token` property — what `completion` pushes into the output — is
`undefined` (`none`), not the arg-max token. -/
theorem c4_temp_zero_bypassed :
    jsDefaultTemperature (some 0) = 1 ∧
    ¬ jsDefaultTemperature (some 0) ≤ 0 ∧
    sampleLogits dummyPositivePath [1, 5, 3] (jsDefaultTemperature (some 0)) 1 =
      dummyPositivePath [1, 5, 3] 1 1 ∧
    sampleLogits dummyPositivePath [1, 5, 3] (-1) 1 = .num 1 ∧
    jsToken (sampleLogits dummyPositivePath [1, 5, 3] (-1) 1) = none := by
  decide

/-- C6: the claim says the dispatcher assigns each admitted request to the
worker with the shortest `(pending + queued)` queue, ties to the lowest
index.  The source never updates `shortestQueueLength` inside its scan,
so every comparison is against queue 0: with loads `[3, 1, 2]` it picks
worker 2 (the last queue shorter than queue 0) although worker 1 is
strictly shorter. -/
theorem c6_not_shortest_queue :
    selectWorkerIdx [3, 1, 2] = 2 ∧
    [3, 1, 2].getD 1 0 < [3, 1, 2].getD 2 0 := by
  decide

/-- C5 (counterexample): the returned completion must end strictly before
the FIRST occurrence of the matched stop sequence, and no streamed chunk
may contain any part of it.  Concrete async run: the first sampled token
decodes to "abxxxx" (the completed stop "ab" at index 0 immediately falls
outside the trailing `2×stopSeqMaxLen` window), the second to "ab", which
is detected; `formatOutputObject` trims at `lastIndexOf` (index 6), so the
returned completion "abxxxx" contains the first occurrence (index 0) of
the stop string, and the single streamed chunk "abxxxx" contains it too. -/
theorem c5_first_occurrence_counterexample :
    (c5Outcome.result.toOption.map fun r => (r.completion, r.chunks)) =
      some ("abxxxx".toList, ["abxxxx".toList]) ∧
    jsIndexOf? ("abxxxxab".toList) ("ab".toList) = some 0 ∧
    jsIncludes ("abxxxx".toList) ("ab".toList) = true := by
  decide

/-- An index found by the downward `lastIndexOf` scan lies in the scanned
range. -/
theorem jsLastIndexOfAux_le {s pat : JStr} : ∀ {k i : Nat},
    jsLastIndexOfAux s pat k = some i → i ≤ k
  | 0, i, h => by
      simp only [jsLastIndexOfAux] at h
      split at h
      · exact (Option.some.inj h) ▸ Nat.le_refl 0
      · exact absurd h (by simp)
  | k + 1, i, h => by
      simp only [jsLastIndexOfAux] at h
      split at h
      · exact (Option.some.inj h) ▸ Nat.le_refl (k + 1)
      · exact Nat.le_succ_of_le (jsLastIndexOfAux_le h)

/-- The index found by the downward `lastIndexOf` scan is an occurrence. -/
theorem jsLastIndexOfAux_prefix {s pat : JStr} : ∀ {k i : Nat},
    jsLastIndexOfAux s pat k = some i → pat <+: s.drop i
  | 0, i, h => by
      simp only [jsLastIndexOfAux] at h
      split at h
      case isTrue hp =>
        rw [← Option.some.inj h]
        simpa using List.isPrefixOf_iff_prefix.mp hp
      case isFalse => exact absurd h (by simp)
  | k + 1, i, h => by
      simp only [jsLastIndexOfAux] at h
      split at h
      case isTrue hp =>
        rw [← Option.some.inj h]
        exact List.isPrefixOf_iff_prefix.mp hp
      case isFalse => exact jsLastIndexOfAux_prefix h

/-- No occurrence lies strictly beyond the index found by the downward
`lastIndexOf` scan (within the scanned range). -/
theorem jsLastIndexOfAux_maximal {s pat : JStr} : ∀ {k i : Nat},
    jsLastIndexOfAux s pat k = some i → ∀ j, i < j → j ≤ k → ¬ pat <+: s.drop j
  | 0, i, h => by
      intro j hij hj0
      exact absurd (Nat.lt_of_lt_of_le hij hj0) (Nat.not_lt_zero i)
  | k + 1, i, h => by
      simp only [jsLastIndexOfAux] at h
      split at h
      case isTrue hp =>
        intro j hij hjk
        rw [← Option.some.inj h] at hij
        exact absurd (Nat.lt_of_lt_of_le hij hjk) (Nat.lt_irrefl (k + 1))
      case isFalse hp =>
        intro j hij hjk hpre
        rcases Nat.lt_or_ge j (k + 1) with hlt | hge
        · exact jsLastIndexOfAux_maximal h j hij (Nat.le_of_lt_succ hlt) hpre
        · have hj : j = k + 1 := Nat.le_antisymm hjk hge
          exact hp (by rw [← hj]; exact List.isPrefixOf_iff_prefix.mpr hpre)

/-- C5 (amended): when a stop sequence matched, `formatOutputObject`
returns the output trimmed at the LAST occurrence of the matched stop
string: the stop occurs in the raw output exactly at the end of the
returned completion and at no later position, the completion is a prefix
of the raw output, and the final streaming flush emits at most one chunk,
which is a suffix (hence a part) of the returned completion. -/
theorem c5_amended {V L : Type} (ps : PromptState V L) (outputStr : JStr)
    (outputTokens : List Nat) (stop : JStr) (streaming : Bool)
    (streamPos : Nat) (chunks : List JStr) (li : Nat)
    (hstop : stop ≠ []) (hli : jsLastIndexOf? outputStr stop = some li) :
    let r := formatOutputObject ps outputStr outputTokens (some stop)
      streaming streamPos chunks
    r.completion = outputStr.take li ∧
    stop <+: outputStr.drop r.completion.length ∧
    (∀ j, r.completion.length < j → ¬ stop <+: outputStr.drop j) ∧
    r.completion <+: outputStr ∧
    (r.chunks = chunks ∨ ∃ c, r.chunks = chunks ++ [c] ∧ c <:+ r.completion) := by
  intro r
  have hle : li ≤ outputStr.length := jsLastIndexOfAux_le hli
  have hcomp : r.completion = outputStr.take li := by
    simp only [r, formatOutputObject, jsTrimAtLastIndexOf, hli]
  have hlen : r.completion.length = li := by
    rw [hcomp, List.length_take]
    exact Nat.min_eq_left hle
  refine ⟨hcomp, ?_, ?_, ?_, ?_⟩
  · rw [hlen]
    exact jsLastIndexOfAux_prefix hli
  · intro j hj hpre
    rw [hlen] at hj
    rcases le_or_lt j outputStr.length with hjle | hjgt
    · exact jsLastIndexOfAux_maximal hli j hj hjle hpre
    · have hnil : outputStr.drop j = [] := List.drop_eq_nil_of_le (Nat.le_of_lt hjgt)
      rw [hnil] at hpre
      exact hstop (List.prefix_nil.mp hpre)
  · rw [hcomp]
    exact List.take_prefix li outputStr
  · by_cases hc : streaming = true ∧ 0 < r.completion.length ∧ streamPos < r.completion.length
    · right
      refine ⟨jsSliceRange outputStr streamPos r.completion.length, ?_, ?_⟩
      · simp only [r, formatOutputObject, jsTrimAtLastIndexOf, hli] at hc ⊢
        rw [if_pos]
        exact hc
      · have hseg : jsSliceRange outputStr streamPos r.completion.length =
            r.completion.drop streamPos := by
          rw [hlen, hcomp, jsSliceRange, List.drop_take]
        rw [hseg]
        exact List.drop_suffix streamPos r.completion
    · left
      simp only [r, formatOutputObject, jsTrimAtLastIndexOf, hli] at hc ⊢
      rw [if_neg]
      exact hc

/-- Witness for the amended C5 at the counterexample's data: stop "ab",
raw output "abxxxxab", last occurrence at index 6. -/
theorem c5_amended_witness :
    (("ab".toList : JStr) ≠ [] ∧
      jsLastIndexOf? ("abxxxxab".toList) ("ab".toList) = some 6) ∧
    (let r := formatOutputObject (⟨0, 0, [], [], 0⟩ : PromptState Nat Nat)
        ("abxxxxab".toList) [1, 2] (some ("ab".toList)) true 0 []
     r.completion = ("abxxxxab".toList).take 6 ∧
     ("ab".toList : JStr) <+: ("abxxxxab".toList).drop r.completion.length ∧
     (∀ j, r.completion.length < j → ¬ ("ab".toList : JStr) <+: ("abxxxxab".toList).drop j) ∧
     r.completion <+: ("abxxxxab".toList) ∧
     (r.chunks = [] ∨ ∃ c, r.chunks = [] ++ [c] ∧ c <:+ r.completion)) :=
  ⟨⟨by decide, by decide⟩,
    c5_amended (⟨0, 0, [], [], 0⟩ : PromptState Nat Nat) ("abxxxxab".toList) [1, 2]
      ("ab".toList) true 0 [] 6 (by decide) (by decide)⟩

/-- C9: a missing, null or empty prompt is rejected by the validation at
the top of `completion` before `_assignFunctionToWorker` is ever invoked:
the call throws the validation error, is never admitted to the shared
work queue (`admitted = false`), feeds no token to the evaluator, and
leaves the cache untouched; nothing in the source retries it. -/
theorem c9_empty_prompt_rejected {V L : Type} (env : RwkvEnv V L)
    (cache : LruCache V L) (opt : CompletionOpt)
    (h : opt.prompt = none ∨ opt.prompt = some []) :
    asyncCompletion env cache opt =
      ⟨.error "Prompt is required for completion operation", cache, false, 0⟩ := by
  unfold asyncCompletion
  rw [if_pos h]

/-- Witness for C9 at a concrete missing prompt. -/
theorem c9_empty_prompt_rejected_witness :
    ((none : Option JStr) = none ∨ (none : Option JStr) = some []) ∧
    asyncCompletion envA (emptyCache Nat Nat)
        ⟨none, none, [], false⟩ =
      ⟨.error "Prompt is required for completion operation",
        emptyCache Nat Nat, false, 0⟩ :=
  ⟨Or.inl rfl,
    c9_empty_prompt_rejected envA (emptyCache Nat Nat)
      ⟨none, none, [], false⟩ (Or.inl rfl)⟩

/-- The prompt state produced by `_getHiddenState_fromFullInputString`
reports at most as many cached tokens as total prompt tokens: the
exact-hit path reports exactly the entry's token count, the partial-hit
path the candidate's token count against `candidate ++ remaining`, and
the miss path zero. -/
theorem asyncResolvePrompt_cached_le {V L : Type} {env : RwkvEnv V L}
    {cache : LruCache V L} {input : JStr} {toks : List Nat}
    {ps : PromptState V L} {c' : LruCache V L}
    (h : asyncResolvePrompt env cache input toks = .ok (ps, c')) :
    ps.cachedTokenSize ≤ ps.tokens.length := by
  unfold asyncResolvePrompt at h
  split at h
  · exact absurd h (by simp)
  · split at h
    next cs heq =>
      try simp only [] at h
      split at h
      · simp only [Except.ok.injEq, Prod.mk.injEq] at h
        obtain ⟨hps, -⟩ := h
        subst hps
        exact Nat.le_refl _
      · try simp only [] at h
        split at h
        · exact absurd h (by simp)
        · simp only [Except.ok.injEq, Prod.mk.injEq] at h
          obtain ⟨hps, -⟩ := h
          subst hps
          simp
    next heq =>
      try simp only [] at h
      split at h
      · exact absurd h (by simp)
      · simp only [Except.ok.injEq, Prod.mk.injEq] at h
        obtain ⟨hps, -⟩ := h
        subst hps
        exact Nat.zero_le _

/-- C10: every successfully returned completion result (pre-warm calls
included) satisfies `totalTokens = promptTokens + completionTokens` and
`promptTokensCached ≤ promptTokens`. -/
theorem c10_usage_invariant {V L : Type} (env : RwkvEnv V L)
    (cache : LruCache V L) (opt : CompletionOpt) (r : CompletionResult)
    (h : (asyncCompletion env cache opt).result = .ok r) :
    r.usage.totalTokens = r.usage.promptTokens + r.usage.completionTokens ∧
    r.usage.promptTokensCached ≤ r.usage.promptTokens := by
  unfold asyncCompletion at h
  split at h
  · exact absurd h (by simp)
  · try simp only [] at h
    split at h
    next e heq => exact absurd h (by simp)
    next ps cache1 heq =>
      have hle := asyncResolvePrompt_cached_le heq
      try simp only [] at h
      split at h
      · simp only [Except.ok.injEq] at h
        subst h
        simpa [formatOutputObject] using hle
      · simp only [Except.ok.injEq] at h
        subst h
        simpa [formatOutputObject] using hle

/-- Witness for C10 at a concrete pre-warm call. -/
theorem c10_usage_invariant_witness :
    (asyncCompletion envA (emptyCache Nat Nat) c8Opt).result =
      .ok ⟨"Hi".toList, [], ⟨2, 0, 2, 0⟩, []⟩ ∧
    ((⟨"Hi".toList, [], ⟨2, 0, 2, 0⟩, []⟩ : CompletionResult).usage.totalTokens =
        (⟨"Hi".toList, [], ⟨2, 0, 2, 0⟩, []⟩ : CompletionResult).usage.promptTokens +
          (⟨"Hi".toList, [], ⟨2, 0, 2, 0⟩, []⟩ : CompletionResult).usage.completionTokens ∧
      (⟨"Hi".toList, [], ⟨2, 0, 2, 0⟩, []⟩ : CompletionResult).usage.promptTokensCached ≤
        (⟨"Hi".toList, [], ⟨2, 0, 2, 0⟩, []⟩ : CompletionResult).usage.promptTokens) :=
  ⟨by decide,
    c10_usage_invariant envA (emptyCache Nat Nat) c8Opt
      ⟨"Hi".toList, [], ⟨2, 0, 2, 0⟩, []⟩ (by decide)⟩

/-- C8 (counterexample): the claim says the second of two identical
pre-warm calls returns the same usage token counts as the first.  The
usage object includes `promptTokensCached`, which is 0 on the first call
(empty cache) and the full prompt token count on the second (the first
call populated the cache): with prompt "Hi" (2 tokens) the two calls
report 0 and 2. -/
theorem c8_cached_usage_differs :
    (c8First.result.toOption.map fun r => (r.completion, r.usage.promptTokens,
      r.usage.completionTokens, r.usage.totalTokens, r.usage.promptTokensCached)) =
      some ([], 2, 0, 2, 0) ∧
    (c8Second.result.toOption.map fun r => (r.completion, r.usage.promptTokens,
      r.usage.completionTokens, r.usage.totalTokens, r.usage.promptTokensCached)) =
      some ([], 2, 0, 2, 2) ∧
    (0 : Nat) ≠ 2 := by
  decide

/-- A string starts with itself. -/
theorem jsStartsWith_refl (s : JStr) : jsStartsWith s s = true := by
  simp [jsStartsWith, List.isPrefixOf_iff_prefix]

/-- `formatOutputObject` on the pre-warm path (no output, no stop, stream
position 0): empty completion, no chunk, usage counting only the prompt. -/
theorem formatOutputObject_prewarm {V L : Type} (ps : PromptState V L)
    (streaming : Bool) :
    formatOutputObject ps [] [] none streaming 0 [] =
      ⟨ps.prompt, [], ⟨ps.tokens.length, 0, ps.tokens.length, ps.cachedTokenSize⟩, []⟩ := by
  unfold formatOutputObject
  simp

/-- Looking up the sole cached prompt finds its entry. -/
theorem asyncFind_singleton {V L : Type} (e : CacheEntry V L) (p : JStr)
    (toks : List Nat) :
    asyncFindCachedState (⟨[(p, e)], []⟩ : LruCache V L) p toks = some e := by
  unfold asyncFindCachedState cacheKeys sortByLenDesc asyncFindGo
  simp [insertByLenDesc, jsStartsWith_refl, cacheGet]

/-- Resolving a prompt against the empty cache: miss, full computation
from the zero state, and a `set` of the full prompt keyed by itself. -/
theorem asyncResolvePrompt_emptyCache {V L : Type} (env : RwkvEnv V L)
    (p : JStr) (hp : p ≠ []) (he : env.encode p ≠ []) :
    asyncResolvePrompt env (emptyCache V L) p (env.encode p) =
      .ok ({ state := (runTokens env env.zeroState (env.encode p)).1,
             logits := (runTokens env env.zeroState (env.encode p)).2,
             prompt := p, tokens := env.encode p, cachedTokenSize := 0 },
           ⟨[(p, ⟨(runTokens env env.zeroState (env.encode p)).1,
                  (runTokens env env.zeroState (env.encode p)).2,
                  p, env.encode p⟩)], []⟩) := by
  have hfind : asyncFindCachedState (emptyCache V L) p (env.encode p) = none := rfl
  have hget : getHiddenState_fromExistingState env none (env.encode p) =
      .ok (runTokens env env.zeroState (env.encode p)) := by
    unfold getHiddenState_fromExistingState
    rw [if_neg (by simp [List.isEmpty_iff, he])]
  unfold asyncResolvePrompt
  rw [if_neg hp, hfind]
  simp only [hget, cacheSet, emptyCache]
  simp

/-- Resolving a prompt that is itself the sole cache key: exact hit, no
evaluation, cache unchanged. -/
theorem asyncResolvePrompt_exactHit {V L : Type} (env : RwkvEnv V L)
    (p : JStr) (toks : List Nat) (e : CacheEntry V L)
    (hp : p ≠ []) (hep : e.prompt = p) :
    asyncResolvePrompt env (⟨[(p, e)], []⟩ : LruCache V L) p toks =
      .ok ({ state := e.state, logits := e.logits, prompt := p,
             tokens := e.tokens, cachedTokenSize := e.tokens.length },
           ⟨[(p, e)], []⟩) := by
  unfold asyncResolvePrompt
  rw [if_neg hp, asyncFind_singleton]
  simp only [hep, List.drop_length, if_pos]

/-- C8 (amended): two identical pre-warm calls (`max_tokens = 0`, cache
enabled, fresh cache) generate no tokens and stream nothing; the second
call returns the same completion, promptTokens, completionTokens and
totalTokens as the first and leaves the cache exactly as the first call
left it — but `promptTokensCached` legitimately differs (0 on the first
call, the full prompt token count on the second), reflecting the cache
population that is the call's purpose. -/
theorem c8_amended {V L : Type} (env : RwkvEnv V L) (p : JStr)
    (stop : List JStr) (streaming : Bool)
    (hp : p ≠ []) (he : env.encode p ≠ []) :
    let opt : CompletionOpt := ⟨some p, some 0, stop, streaming⟩
    let o1 := asyncCompletion env (emptyCache V L) opt
    let o2 := asyncCompletion env o1.cache opt
    ∃ r1 r2, o1.result = .ok r1 ∧ o2.result = .ok r2 ∧
      r1.completion = [] ∧ r2.completion = [] ∧
      r1.usage.completionTokens = 0 ∧ r2.usage.completionTokens = 0 ∧
      r1.chunks = [] ∧ r2.chunks = [] ∧
      r2.usage.promptTokens = r1.usage.promptTokens ∧
      r2.usage.totalTokens = r1.usage.totalTokens ∧
      r1.usage.promptTokensCached = 0 ∧
      r2.usage.promptTokensCached = (env.encode p).length ∧
      o2.cache = o1.cache := by
  intro opt o1 o2
  have hval : ¬ (opt.prompt = none ∨ opt.prompt = some []) := by
    simp [opt, hp]
  have ho1 : o1 = ⟨.ok (formatOutputObject
      ({ state := (runTokens env env.zeroState (env.encode p)).1,
         logits := (runTokens env env.zeroState (env.encode p)).2,
         prompt := p, tokens := env.encode p, cachedTokenSize := 0 } : PromptState V L)
      [] [] none streaming 0 []),
      ⟨[(p, ⟨(runTokens env env.zeroState (env.encode p)).1,
             (runTokens env env.zeroState (env.encode p)).2,
             p, env.encode p⟩)], []⟩, true,
      asyncResolveEvalCount (emptyCache V L) p (env.encode p) env⟩ := by
    show asyncCompletion env (emptyCache V L) opt = _
    unfold asyncCompletion
    rw [if_neg hval]
    simp only [opt, Option.getD_some, asyncResolvePrompt_emptyCache env p hp he]
    simp
  have ho2 : o2 = ⟨.ok (formatOutputObject
      ({ state := (runTokens env env.zeroState (env.encode p)).1,
         logits := (runTokens env env.zeroState (env.encode p)).2,
         prompt := p, tokens := env.encode p, cachedTokenSize := (env.encode p).length }
         : PromptState V L)
      [] [] none streaming 0 []),
      ⟨[(p, ⟨(runTokens env env.zeroState (env.encode p)).1,
             (runTokens env env.zeroState (env.encode p)).2,
             p, env.encode p⟩)], []⟩, true,
      asyncResolveEvalCount o1.cache p (env.encode p) env⟩ := by
    show asyncCompletion env o1.cache opt = _
    unfold asyncCompletion
    rw [if_neg hval]
    rw [ho1]
    simp only [opt, Option.getD_some,
      asyncResolvePrompt_exactHit env p (env.encode p)
        ⟨(runTokens env env.zeroState (env.encode p)).1,
         (runTokens env env.zeroState (env.encode p)).2, p, env.encode p⟩ hp rfl]
    simp
  rw [formatOutputObject_prewarm] at ho1 ho2
  refine ⟨⟨p, [], ⟨(env.encode p).length, 0, (env.encode p).length, 0⟩, []⟩,
          ⟨p, [], ⟨(env.encode p).length, 0, (env.encode p).length,
                   (env.encode p).length⟩, []⟩,
          ?_, ?_, rfl, rfl, rfl, rfl, rfl, rfl, rfl, rfl, rfl, rfl, ?_⟩
  · rw [ho1]
  · rw [ho2]
  · rw [ho1, ho2]

/-- Witness for the amended C8 at the concrete prompt "Hi". -/
theorem c8_amended_witness :
    (("Hi".toList : JStr) ≠ [] ∧ envA.encode ("Hi".toList) ≠ []) ∧
    (let opt : CompletionOpt := ⟨some ("Hi".toList), some 0, [], false⟩
     let o1 := asyncCompletion envA (emptyCache Nat Nat) opt
     let o2 := asyncCompletion envA o1.cache opt
     ∃ r1 r2, o1.result = .ok r1 ∧ o2.result = .ok r2 ∧
       r1.completion = [] ∧ r2.completion = [] ∧
       r1.usage.completionTokens = 0 ∧ r2.usage.completionTokens = 0 ∧
       r1.chunks = [] ∧ r2.chunks = [] ∧
       r2.usage.promptTokens = r1.usage.promptTokens ∧
       r2.usage.totalTokens = r1.usage.totalTokens ∧
       r1.usage.promptTokensCached = 0 ∧
       r2.usage.promptTokensCached = (envA.encode ("Hi".toList)).length ∧
       o2.cache = o1.cache) :=
  ⟨⟨by decide, by decide⟩,
    c8_amended envA ("Hi".toList) [] false (by decide) (by decide)⟩

/-- The scan result of `selectWorkerGo` stays below the total index range. -/
theorem selectWorkerGo_lt (l0 : Nat) : ∀ (ls : List Nat) (i best : Nat),
    best < i → selectWorkerGo l0 i best ls < i + ls.length
  | [], _, _, h => h
  | l :: ls, i, best, h => by
      have hb : (if l < l0 then i else best) < i + 1 := by
        split
        · exact Nat.lt_succ_self i
        · exact Nat.lt_succ_of_lt h
      have hrec := selectWorkerGo_lt l0 ls (i + 1) (if l < l0 then i else best) hb
      simp only [selectWorkerGo, List.length_cons]
      omega

/-- The dispatcher always selects an index of an existing worker. -/
theorem selectWorkerIdx_lt (lens : List Nat) (h : lens ≠ []) :
    selectWorkerIdx lens < lens.length := by
  match lens with
  | [] => exact absurd rfl h
  | l0 :: rest =>
      have := selectWorkerGo_lt l0 rest 1 0 Nat.zero_lt_one
      simpa [selectWorkerIdx, Nat.add_comm] using this

/-- `execWorkers` distributes over the decomposition around one request. -/
theorem execWorkers_middle (pre post : Sys) (ph : Phase) :
    execWorkers (pre ++ ph :: post) =
      execWorkers pre ++ execWorkers [ph] ++ execWorkers post := by
  cases ph <;> simp [execWorkers, List.filterMap_append, List.filterMap_cons]

/-- Worker indices mentioned by a phase are valid for a pool of `N`. -/
def PhaseOk (N : Nat) : Phase → Prop
  | Phase.workerWait w => w < N
  | Phase.executing w => w < N
  | _ => True

/-- The scheduler invariant: every mentioned worker exists, and each
worker executes at most one request at a time. -/
def SysInv (N : Nat) (s : Sys) : Prop :=
  (∀ ph ∈ s, PhaseOk N ph) ∧ ∀ w, executingOn s w ≤ 1

/-- Every scheduler step preserves the invariant. -/
theorem step_inv {N : Nat} {s t : Sys} (hst : Step N s t) (hinv : SysInv N s) :
    SysInv N t := by
  obtain ⟨hok, hcnt⟩ := hinv
  cases hst with
  | assign pre post hcap =>
      have hN : 0 < N := by
        by_contra hN0
        have hz : N = 0 := Nat.eq_zero_of_not_pos hN0
        rw [hz] at hcap
        exact Nat.not_lt_zero _ hcap
      have hwlt : selectWorkerIdx (workerLoads (pre ++ Phase.funnelWait :: post) N) < N := by
        have hlen : (workerLoads (pre ++ Phase.funnelWait :: post) N).length = N := by
          simp [workerLoads]
        have hne : workerLoads (pre ++ Phase.funnelWait :: post) N ≠ [] := by
          intro hnil
          rw [hnil] at hlen
          simp at hlen
          omega
        have := selectWorkerIdx_lt _ hne
        rwa [hlen] at this
      constructor
      · intro ph hph
        rcases List.mem_append.mp hph with hpre | hrest
        · exact hok ph (List.mem_append.mpr (Or.inl hpre))
        · rcases List.mem_cons.mp hrest with heq | hpost
          · rw [heq]
            exact hwlt
          · exact hok ph (List.mem_append.mpr (Or.inr (List.mem_cons_of_mem _ hpost)))
      · intro w
        have hold := hcnt w
        rw [executingOn, execWorkers_middle] at hold ⊢
        have e1 : execWorkers [Phase.funnelWait] = [] := rfl
        have e2 : execWorkers [Phase.workerWait
            (selectWorkerIdx (workerLoads (pre ++ Phase.funnelWait :: post) N))] = [] := rfl
        rw [e1] at hold
        rw [e2]
        exact hold
  | start pre post w hfree =>
      constructor
      · intro ph hph
        rcases List.mem_append.mp hph with hpre | hrest
        · exact hok ph (List.mem_append.mpr (Or.inl hpre))
        · rcases List.mem_cons.mp hrest with heq | hpost
          · rw [heq]
            have hww : PhaseOk N (Phase.workerWait w) :=
              hok _ (List.mem_append.mpr (Or.inr (List.mem_cons_self _ _)))
            exact hww
          · exact hok ph (List.mem_append.mpr (Or.inr (List.mem_cons_of_mem _ hpost)))
      · intro w'
        have hold := hcnt w'
        have hfree' := hfree
        rw [executingOn, execWorkers_middle] at hold ⊢
        rw [executingOn, execWorkers_middle] at hfree'
        have e1 : execWorkers [Phase.workerWait w] = [] := rfl
        have e2 : execWorkers [Phase.executing w] = [w] := rfl
        rw [e1] at hold hfree'
        rw [e2]
        simp only [List.count_append, List.count_nil] at hold hfree' ⊢
        by_cases hw : w' = w
        · subst hw
          have hone : List.count w' [w'] = 1 := by simp
          omega
        · have hzero : List.count w' [w] = 0 := by
            simp [List.count_cons, hw]
          omega
  | finish pre post w =>
      constructor
      · intro ph hph
        rcases List.mem_append.mp hph with hpre | hrest
        · exact hok ph (List.mem_append.mpr (Or.inl hpre))
        · rcases List.mem_cons.mp hrest with heq | hpost
          · rw [heq]
            trivial
          · exact hok ph (List.mem_append.mpr (Or.inr (List.mem_cons_of_mem _ hpost)))
      · intro w'
        have hold := hcnt w'
        rw [executingOn, execWorkers_middle] at hold ⊢
        have e1 : execWorkers [Phase.executing w] = [w] := rfl
        have e2 : execWorkers [Phase.finished] = [] := rfl
        rw [e1] at hold
        rw [e2]
        simp only [List.count_append, List.count_nil] at hold ⊢
        omega

/-- Reachability preserves the invariant. -/
theorem reach_inv {N : Nat} {s t : Sys} (h : Reach N s t) (hinv : SysInv N s) :
    SysInv N t := by
  induction h with
  | refl => exact hinv
  | tail hr hs ih => exact step_inv hs ih

/-- No request executes in the all-waiting initial state. -/
theorem execWorkers_replicate (n : Nat) :
    execWorkers (List.replicate n Phase.funnelWait) = [] := by
  induction n with
  | zero => rfl
  | succ n ih => simp [List.replicate_succ, execWorkers, List.filterMap]

/-- The initial state (every request waiting in the funnel) satisfies the
invariant. -/
theorem init_inv (N tasks : Nat) :
    SysInv N (List.replicate tasks Phase.funnelWait) := by
  constructor
  · intro ph hph
    rw [List.eq_of_mem_replicate hph]
    trivial
  · intro w
    rw [executingOn, execWorkers_replicate]
    simp

/-- A list of naturals with no repeats, all below `N`, has at most `N`
elements. -/
theorem count_le_one_length_le {l : List Nat} {N : Nat}
    (hnd : ∀ a, l.count a ≤ 1) (hlt : ∀ x ∈ l, x < N) : l.length ≤ N := by
  have hnd' : l.Nodup := List.nodup_iff_count_le_one.mpr hnd
  have hsub : l.toFinset ⊆ Finset.range N := by
    intro x hx
    rw [Finset.mem_range]
    exact hlt x (List.mem_toFinset.mp hx)
  have hcard := Finset.card_le_card hsub
  rwa [List.toFinset_card_of_nodup hnd', Finset.card_range] at hcard

/-- C7 (amended): in every state reachable from `tasks` requests waiting
at the shared funnel with a pool of `N` workers, at most `N` requests are
in the executing-evaluator state, and each worker runs at most one at a
time (the per-worker concurrency-1 discipline); the `(N+1)`-th concurrent
call, however, waits in its assigned worker's queue, not in the shared
funnel (see the accompanying counterexample theorem). -/
theorem c7_amended (N tasks : Nat) (s : Sys)
    (h : Reach N (List.replicate tasks Phase.funnelWait) s) :
    execCount s ≤ N ∧ ∀ w, executingOn s w ≤ 1 := by
  have hinv := reach_inv h (init_inv N tasks)
  refine ⟨?_, hinv.2⟩
  apply count_le_one_length_le hinv.2
  intro x hx
  obtain ⟨ph, hmem, hfx⟩ := List.mem_filterMap.mp hx
  have hok := hinv.1 ph hmem
  cases ph <;> simp_all [PhaseOk]

/-- C7 (counterexample): the claim says that with pool size `N` and `N+1`
concurrent calls, the `(N+1)`-th call "waits queued in the shared funnel
queue, whose capacity is 2×N".  With `N = 1` and two calls, the funnel's
parameter `2×N = 2` admits both calls at once, so a state is reachable in
which one call executes, the other has already left the funnel and waits
in worker 0's queue, and no call is waiting in the shared funnel at all
(and the admission scan assigned it to a worker immediately). -/
theorem c7_second_call_not_in_funnel :
    Reach 1 (List.replicate 2 Phase.funnelWait)
      [Phase.executing 0, Phase.workerWait 0] ∧
    execCount [Phase.executing 0, Phase.workerWait 0] = 1 ∧
    Phase.funnelWait ∉ [Phase.executing 0, Phase.workerWait 0] := by
  refine ⟨?_, by decide, by decide⟩
  have h1 : Step 1 [Phase.funnelWait, Phase.funnelWait]
      [Phase.workerWait 0, Phase.funnelWait] :=
    Step.assign [] [Phase.funnelWait] (by decide)
  have h2 : Step 1 [Phase.workerWait 0, Phase.funnelWait]
      [Phase.workerWait 0, Phase.workerWait 0] :=
    Step.assign [Phase.workerWait 0] [] (by decide)
  have h3 : Step 1 [Phase.workerWait 0, Phase.workerWait 0]
      [Phase.executing 0, Phase.workerWait 0] :=
    Step.start [] [Phase.workerWait 0] 0 (by decide)
  exact Reach.tail (Reach.tail (Reach.tail (Reach.refl _) h1) h2) h3

/-- Witness for the amended C7 at a concrete reachable state (pool size 1,
two concurrent calls, one executing and one queued at worker 0). -/
theorem c7_amended_witness :
    Reach 1 (List.replicate 2 Phase.funnelWait)
      [Phase.executing 0, Phase.workerWait 0] ∧
    (execCount [Phase.executing 0, Phase.workerWait 0] ≤ 1 ∧
      ∀ w, executingOn [Phase.executing 0, Phase.workerWait 0] w ≤ 1) := by
  have h1 : Step 1 [Phase.funnelWait, Phase.funnelWait]
      [Phase.workerWait 0, Phase.funnelWait] :=
    Step.assign [] [Phase.funnelWait] (by decide)
  have h2 : Step 1 [Phase.workerWait 0, Phase.funnelWait]
      [Phase.workerWait 0, Phase.workerWait 0] :=
    Step.assign [Phase.workerWait 0] [] (by decide)
  have h3 : Step 1 [Phase.workerWait 0, Phase.workerWait 0]
      [Phase.executing 0, Phase.workerWait 0] :=
    Step.start [] [Phase.workerWait 0] 0 (by decide)
  have hreach : Reach 1 (List.replicate 2 Phase.funnelWait)
      [Phase.executing 0, Phase.workerWait 0] :=
    Reach.tail (Reach.tail (Reach.tail (Reach.refl _) h1) h2) h3
  exact ⟨hreach, c7_amended 1 2 _ hreach⟩
